import Mathlib

/-!
Shallow embedding of the dataset-curation pipeline in
`src/training/scripts/prepare_data.py`, together with proofs of the
specified properties.  Python strings are modelled as their lists of
characters; Python dicts as association lists; exceptions as `Except`.
-/

namespace PrepareData

/-- The Unicode whitespace characters stripped by the Python `str.strip()` method and
matched by `\s` in `re` patterns over `str`. -/
def pyWhitespaceChars : List Char :=
  [' ', '\t', '\n', '\r', '\x0b', '\x0c', '\x1c', '\x1d', '\x1e', '\x1f',
   '\x85', '\xa0', ' ', ' ', ' ', ' ', ' ', ' ',
   ' ', ' ', ' ', ' ', ' ', ' ', ' ',
   ' ', ' ', ' ', '　']

/-- Whitespace test (`str.isspace` / regex `\s`). -/
def isPyWS (c : Char) : Bool := pyWhitespaceChars.contains c

/-- Horizontal whitespace: what the regex `[^\S\n]` matches
(whitespace other than a newline). -/
def isHWS (c : Char) : Bool := isPyWS c && !(c == '\n')

/-- Embeds `re.sub(r"[^\S\n]+", " ", text)`: replace every maximal run of
non-newline whitespace by a single space. -/
def collapseWS : List Char → List Char
  | [] => []
  | c :: rest =>
    if isHWS c then ' ' :: collapseWS (rest.dropWhile isHWS)
    else c :: collapseWS rest
termination_by l => l.length
decreasing_by
  · exact Nat.lt_succ_of_le (List.dropWhile_suffix _).length_le
  · simp

/-- Embeds `re.sub(r"\n{3,}", "\n\n", text)`: replace every maximal run of three or
more newlines by exactly two. -/
def collapseNL : List Char → List Char
  | [] => []
  | c :: rest =>
    if c == '\n' then
      (if 2 ≤ (rest.takeWhile (fun d => d == '\n')).length then ['\n', '\n']
       else c :: rest.takeWhile (fun d => d == '\n')) ++
        collapseNL (rest.dropWhile (fun d => d == '\n'))
    else c :: collapseNL rest
termination_by l => l.length
decreasing_by
  · exact Nat.lt_succ_of_le (List.dropWhile_suffix _).length_le
  · simp

/-- Python `text.strip()`: drop leading whitespace, then trailing whitespace. -/
def pyStrip (l : List Char) : List Char :=
  (l.dropWhile isPyWS).rdropWhile isPyWS

/-- Embeds `normalize_text` from `prepare_data.py`.  The call
`unicodedata.normalize("NFC", text)` is kept as the parameter `nfc`
(canonical composition is a Unicode-table function, not part of this
program); the whitespace pipeline that follows it is embedded exactly. -/
def normalize_text (nfc : List Char → List Char) (text : List Char) : List Char :=
  pyStrip (collapseNL (collapseWS (nfc text)))

/-! ### Support lemmas: the normalizer is idempotent -/

theorem head?_dropWhile_false {α} {p : α → Bool} {l : List α} {d : α}
    (h : (l.dropWhile p).head? = some d) : p d = false := by
  have hh := List.head?_dropWhile_not p l
  rw [h] at hh
  exact hh

theorem dropWhile_eq_self_of_head {α} {p : α → Bool} {l : List α}
    (h : ∀ d ∈ l.head?, p d = false) : l.dropWhile p = l := by
  cases l with
  | nil => rfl
  | cons c t => simp [List.dropWhile_cons, h c rfl]

/-- Invariant established by `collapseWS`: every horizontal-whitespace
character is a plain space, and no two adjacent characters are both
horizontal whitespace. -/
def wsOK (l : List Char) : Prop :=
  (∀ c ∈ l, isHWS c = true → c = ' ') ∧
    l.Chain' (fun a b => isHWS a = false ∨ isHWS b = false)

theorem wsOK_nil : wsOK [] := ⟨by simp, List.chain'_nil⟩

theorem wsOK_append_left {a b : List Char} (h : wsOK (a ++ b)) : wsOK a :=
  ⟨fun c hc => h.1 c (List.mem_append_left _ hc), (List.chain'_append.mp h.2).1⟩

theorem wsOK_append_right {a b : List Char} (h : wsOK (a ++ b)) : wsOK b :=
  ⟨fun c hc => h.1 c (List.mem_append_right _ hc), (List.chain'_append.mp h.2).2.1⟩

theorem wsOK_cons {c : Char} {l : List Char} (h : wsOK (c :: l)) : wsOK l :=
  wsOK_append_right (a := [c]) (b := l) h

theorem chain'_of_all_not_hws {m : List Char} (hm : ∀ a ∈ m, isHWS a = false) :
    m.Chain' (fun a b => isHWS a = false ∨ isHWS b = false) := by
  induction m with
  | nil => exact List.chain'_nil
  | cons a t ih =>
    rw [List.chain'_cons']
    exact ⟨fun y _ => Or.inl (hm a (by simp)),
      ih fun b hb => hm b (List.mem_cons_of_mem _ hb)⟩

theorem collapseWS_head? {l : List Char} (h : ∀ d ∈ l.head?, isHWS d = false) :
    (collapseWS l).head? = l.head? := by
  cases l with
  | nil => simp [collapseWS]
  | cons c rest => simp [collapseWS, h c rfl]

theorem wsOK_collapseWS : ∀ l : List Char, wsOK (collapseWS l)
  | [] => by simpa [collapseWS] using wsOK_nil
  | c :: rest => by
    by_cases hc : isHWS c = true
    · have hrec := wsOK_collapseWS (rest.dropWhile isHWS)
      rw [show collapseWS (c :: rest) = ' ' :: collapseWS (rest.dropWhile isHWS) by
        simp [collapseWS, hc]]
      refine ⟨?_, ?_⟩
      · intro d hd hws
        rcases List.mem_cons.mp hd with h1 | h1
        · exact h1
        · exact hrec.1 d h1 hws
      · rw [List.chain'_cons']
        refine ⟨?_, hrec.2⟩
        intro y hy
        rw [collapseWS_head? (fun d hd => head?_dropWhile_false hd)] at hy
        exact Or.inr (head?_dropWhile_false hy)
    · have hrec := wsOK_collapseWS rest
      rw [show collapseWS (c :: rest) = c :: collapseWS rest by simp [collapseWS, hc]]
      refine ⟨?_, ?_⟩
      · intro d hd hws
        rcases List.mem_cons.mp hd with h1 | h1
        · exact absurd (h1 ▸ hws) (by simpa using hc)
        · exact hrec.1 d h1 hws
      · rw [List.chain'_cons']
        exact ⟨fun y _ => Or.inl (by simpa using hc), hrec.2⟩
termination_by l => l.length
decreasing_by
  · exact Nat.lt_succ_of_le (List.dropWhile_suffix _).length_le
  · simp

theorem collapseWS_eq_self : ∀ {l : List Char}, wsOK l → collapseWS l = l
  | [], _ => by simp [collapseWS]
  | c :: rest, h => by
    by_cases hc : isHWS c = true
    · have hsp : c = ' ' := h.1 c (by simp) hc
      have hdrop : rest.dropWhile isHWS = rest := by
        apply dropWhile_eq_self_of_head
        intro d hd
        cases rest with
        | nil => simp at hd
        | cons r t =>
          have hr : d = r := by simpa using hd.symm
          rcases (List.chain'_cons.mp h.2).1 with h1 | h1
          · exact absurd hc (by simp [h1])
          · exact hr ▸ h1
      rw [show collapseWS (c :: rest) = ' ' :: collapseWS (rest.dropWhile isHWS) by
        simp [collapseWS, hc]]
      rw [hdrop, collapseWS_eq_self (wsOK_cons h), hsp]
    · rw [show collapseWS (c :: rest) = c :: collapseWS rest by simp [collapseWS, hc]]
      rw [collapseWS_eq_self (wsOK_cons h)]

theorem collapseNL_head? (l : List Char) : (collapseNL l).head? = l.head? := by
  cases l with
  | nil => simp [collapseNL]
  | cons c rest =>
    by_cases hc : (c == '\n') = true
    · have hc' : c = '\n' := by simpa using hc
      by_cases h2 : 2 ≤ (rest.takeWhile (fun d => d == '\n')).length
      · simp [collapseNL, hc, h2, hc']
      · simp [collapseNL, hc, h2]
    · simp [collapseNL, hc]

theorem wsOK_collapseNL : ∀ {l : List Char}, wsOK l → wsOK (collapseNL l)
  | [], _ => by simpa [collapseNL] using wsOK_nil
  | c :: rest, h => by
    by_cases hc : (c == '\n') = true
    · have hc' : c = '\n' := by simpa using hc
      have htl : wsOK (rest.dropWhile (fun d => d == '\n')) := by
        have hsplit := List.takeWhile_append_dropWhile (p := fun d => d == '\n') (l := rest)
        exact wsOK_append_right (hsplit ▸ wsOK_cons h)
      have hrec := wsOK_collapseNL htl
      have hchunk : ∀ ch : List Char, (∀ a ∈ ch, a = '\n') →
          wsOK (ch ++ collapseNL (rest.dropWhile (fun d => d == '\n'))) := by
        intro ch hch
        refine ⟨?_, ?_⟩
        · intro d hd hws
          rcases List.mem_append.mp hd with h1 | h1
          · exact absurd (hch d h1 ▸ hws) (by decide)
          · exact hrec.1 d h1 hws
        · rw [List.chain'_append]
          refine ⟨chain'_of_all_not_hws (fun a ha => by rw [hch a ha]; decide), hrec.2, ?_⟩
          intro x hx y _
          exact Or.inl (by rw [hch x (List.mem_of_getLast?_eq_some hx)]; decide)
      by_cases h2 : 2 ≤ (rest.takeWhile (fun d => d == '\n')).length
      · rw [show collapseNL (c :: rest) =
            ['\n', '\n'] ++ collapseNL (rest.dropWhile (fun d => d == '\n')) by
          simp [collapseNL, hc, h2]]
        refine hchunk _ ?_
        intro a ha
        rcases List.mem_cons.mp ha with h1 | h1
        · exact h1
        · simpa using h1
      · rw [show collapseNL (c :: rest) =
            (c :: rest.takeWhile (fun d => d == '\n')) ++
              collapseNL (rest.dropWhile (fun d => d == '\n')) by
          simp [collapseNL, hc, h2]]
        refine hchunk _ ?_
        intro a ha
        rcases List.mem_cons.mp ha with h1 | h1
        · exact h1 ▸ hc'
        · simpa using List.mem_takeWhile_imp h1
    · have hrec := wsOK_collapseNL (wsOK_cons h)
      rw [show collapseNL (c :: rest) = c :: collapseNL rest by simp [collapseNL, hc]]
      refine ⟨?_, ?_⟩
      · intro d hd hws
        rcases List.mem_cons.mp hd with h1 | h1
        · exact h.1 d (h1 ▸ List.mem_cons_self c rest) hws
        · exact hrec.1 d h1 hws
      · rw [List.chain'_cons']
        refine ⟨?_, hrec.2⟩
        intro y hy
        rw [collapseNL_head?] at hy
        exact (List.chain'_cons'.mp h.2).1 y hy
termination_by l => l.length
decreasing_by
  · exact Nat.lt_succ_of_le (List.dropWhile_suffix _).length_le
  · simp

/-- Invariant established by `collapseNL`: no three consecutive newlines. -/
def nlOK : List Char → Bool
  | a :: b :: c :: rest => !(a == '\n' && b == '\n' && c == '\n') && nlOK (b :: c :: rest)
  | _ => true

theorem nlOK_tail : ∀ {x : Char} {l : List Char}, nlOK (x :: l) = true → nlOK l = true := by
  intro x l h
  match l with
  | [] => rfl
  | [_] => rfl
  | b :: c :: t =>
    rw [show nlOK (x :: b :: c :: t) =
      (!(x == '\n' && b == '\n' && c == '\n') && nlOK (b :: c :: t)) from rfl] at h
    exact (Bool.and_eq_true _ _ ▸ h).2

theorem nlOK_append_right {a b : List Char} (h : nlOK (a ++ b) = true) : nlOK b = true := by
  induction a with
  | nil => exact h
  | cons x t ih => exact ih (nlOK_tail h)

theorem nlOK_append_left : ∀ {a : List Char}, ∀ {b : List Char},
    nlOK (a ++ b) = true → nlOK a = true
  | [], _, _ => rfl
  | [_], _, _ => rfl
  | [_, _], _, _ => rfl
  | x :: y :: z :: t, b, h => by
    rw [show (x :: y :: z :: t) ++ b = x :: y :: z :: (t ++ b) from rfl] at h
    rw [show nlOK (x :: y :: z :: (t ++ b)) =
      (!(x == '\n' && y == '\n' && z == '\n') && nlOK (y :: z :: (t ++ b))) from rfl] at h
    rcases Bool.and_eq_true _ _ ▸ h with ⟨h1, h2⟩
    rw [show nlOK (x :: y :: z :: t) =
      (!(x == '\n' && y == '\n' && z == '\n') && nlOK (y :: z :: t)) from rfl]
    rw [Bool.and_eq_true]
    exact ⟨h1, nlOK_append_left (a := y :: z :: t) (b := b) h2⟩

theorem nlOK_cons_of_ne {c : Char} {l : List Char} (hc : (c == '\n') = false)
    (h : nlOK l = true) : nlOK (c :: l) = true := by
  match l with
  | [] => rfl
  | [_] => rfl
  | x :: y :: t =>
    rw [show nlOK (c :: x :: y :: t) =
      (!(c == '\n' && x == '\n' && y == '\n') && nlOK (x :: y :: t)) from rfl,
      Bool.and_eq_true]
    exact ⟨by simp [hc], h⟩

theorem nlOK_cons_nl {l : List Char} (h : nlOK l = true)
    (hh : ∀ d ∈ l.head?, (d == '\n') = false) : nlOK ('\n' :: l) = true := by
  match l with
  | [] => rfl
  | [_] => rfl
  | x :: y :: t =>
    rw [show nlOK ('\n' :: x :: y :: t) =
      (!('\n' == '\n' && x == '\n' && y == '\n') && nlOK (x :: y :: t)) from rfl,
      Bool.and_eq_true]
    exact ⟨by simp [hh x rfl], h⟩

theorem nlOK_cons_nl_nl {l : List Char} (h : nlOK l = true)
    (hh : ∀ d ∈ l.head?, (d == '\n') = false) : nlOK ('\n' :: '\n' :: l) = true := by
  match l with
  | [] => rfl
  | x :: t =>
    rw [show nlOK ('\n' :: '\n' :: x :: t) =
      (!('\n' == '\n' && '\n' == '\n' && x == '\n') && nlOK ('\n' :: x :: t)) from rfl,
      Bool.and_eq_true]
    exact ⟨by simp [hh x rfl], nlOK_cons_nl h hh⟩

theorem collapseNL_eq_self : ∀ {l : List Char}, nlOK l = true → collapseNL l = l
  | [], _ => by simp [collapseNL]
  | c :: rest, h => by
    by_cases hc : (c == '\n') = true
    · have hc' : c = '\n' := by simpa using hc
      have h2 : ¬ 2 ≤ (rest.takeWhile (fun d => d == '\n')).length := by
        intro h2
        match hw : rest.takeWhile (fun d => d == '\n') with
        | [] => rw [hw] at h2; simp at h2
        | [_] => rw [hw] at h2; simp at h2
        | d1 :: d2 :: t =>
          have hmem1 : d1 ∈ rest.takeWhile (fun d => d == '\n') := by
            rw [hw]; exact List.mem_cons_self _ _
          have hmem2 : d2 ∈ rest.takeWhile (fun d => d == '\n') := by
            rw [hw]; exact List.mem_cons_of_mem _ (List.mem_cons_self _ _)
          have hd1 : d1 = '\n' := eq_of_beq (List.mem_takeWhile_imp (p := fun d => d == '\n') hmem1)
          have hd2 : d2 = '\n' := eq_of_beq (List.mem_takeWhile_imp (p := fun d => d == '\n') hmem2)
          have hrest : rest = '\n' :: '\n' :: (t ++ rest.dropWhile (fun d => d == '\n')) := by
            conv_lhs => rw [← List.takeWhile_append_dropWhile
              (p := fun d => d == '\n') (l := rest)]
            rw [hw, hd1, hd2]
            simp
          rw [hc', hrest] at h
          simp [nlOK] at h
      rw [show collapseNL (c :: rest) =
          (c :: rest.takeWhile (fun d => d == '\n')) ++
            collapseNL (rest.dropWhile (fun d => d == '\n')) by
        simp [collapseNL, hc, h2]]
      have htail : nlOK (rest.dropWhile (fun d => d == '\n')) = true := by
        refine nlOK_append_right (a := rest.takeWhile (fun d => d == '\n')) ?_
        rw [List.takeWhile_append_dropWhile]
        exact nlOK_tail h
      rw [collapseNL_eq_self htail]
      simp [List.takeWhile_append_dropWhile]
    · rw [show collapseNL (c :: rest) = c :: collapseNL rest by simp [collapseNL, hc]]
      rw [collapseNL_eq_self (nlOK_tail h)]
termination_by l => l.length
decreasing_by
  · exact Nat.lt_succ_of_le (List.dropWhile_suffix _).length_le
  · simp

theorem nlOK_collapseNL : ∀ l : List Char, nlOK (collapseNL l) = true
  | [] => by simp [collapseNL, nlOK]
  | c :: rest => by
    have hrec := nlOK_collapseNL (rest.dropWhile (fun d => d == '\n'))
    have hh : ∀ d ∈ (collapseNL (rest.dropWhile (fun d => d == '\n'))).head?,
        (d == '\n') = false := by
      intro d hd
      rw [collapseNL_head?] at hd
      have hd' : ((rest.dropWhile (fun d => d == '\n')).head? = some d) := hd
      exact head?_dropWhile_false (p := fun d => d == '\n') hd'
    by_cases hc : (c == '\n') = true
    · by_cases h2 : 2 ≤ (rest.takeWhile (fun d => d == '\n')).length
      · rw [show collapseNL (c :: rest) =
            ['\n', '\n'] ++ collapseNL (rest.dropWhile (fun d => d == '\n')) by
          simp [collapseNL, hc, h2]]
        exact nlOK_cons_nl_nl hrec hh
      · have hc' : c = '\n' := by simpa using hc
        rw [show collapseNL (c :: rest) =
            (c :: rest.takeWhile (fun d => d == '\n')) ++
              collapseNL (rest.dropWhile (fun d => d == '\n')) by
          simp [collapseNL, hc, h2]]
        match hw : rest.takeWhile (fun d => d == '\n') with
        | [] => simpa [hc'] using nlOK_cons_nl hrec hh
        | [d1] =>
          have hmem1 : d1 ∈ rest.takeWhile (fun d => d == '\n') := by
            rw [hw]; exact List.mem_cons_self _ _
          have hd1 : d1 = '\n' := eq_of_beq (List.mem_takeWhile_imp (p := fun d => d == '\n') hmem1)
          simpa [hc', hd1] using nlOK_cons_nl_nl hrec hh
        | d1 :: d2 :: t =>
          rw [hw] at h2
          simp at h2
    · have hrecR := nlOK_collapseNL rest
      rw [show collapseNL (c :: rest) = c :: collapseNL rest by simp [collapseNL, hc]]
      exact nlOK_cons_of_ne (by simpa using hc) hrecR
termination_by l => l.length
decreasing_by
  · exact Nat.lt_succ_of_le (List.dropWhile_suffix _).length_le
  · simp

theorem pyStrip_idem (l : List Char) : pyStrip (pyStrip l) = pyStrip l := by
  unfold pyStrip
  rw [dropWhile_eq_self_of_head (l := (l.dropWhile isPyWS).rdropWhile isPyWS) ?_]
  · exact List.rdropWhile_idempotent isPyWS _
  · intro d hd
    obtain ⟨t, ht⟩ := List.rdropWhile_prefix isPyWS (l.dropWhile isPyWS)
    have : d ∈ (l.dropWhile isPyWS).head? := by
      rw [← ht]
      exact List.mem_head?_append_of_mem_head? hd
    exact head?_dropWhile_false this

theorem wsOK_pyStrip {l : List Char} (h : wsOK l) : wsOK (pyStrip l) := by
  have h1 : wsOK (l.dropWhile isPyWS) := by
    have hsplit := List.takeWhile_append_dropWhile (p := isPyWS) (l := l)
    exact wsOK_append_right (hsplit ▸ h)
  obtain ⟨t, ht⟩ := List.rdropWhile_prefix isPyWS (l.dropWhile isPyWS)
  exact wsOK_append_left (b := t) (ht ▸ h1)

theorem nlOK_pyStrip {l : List Char} (h : nlOK l = true) : nlOK (pyStrip l) = true := by
  have h1 : nlOK (l.dropWhile isPyWS) = true := by
    refine nlOK_append_right (a := l.takeWhile isPyWS) ?_
    rw [List.takeWhile_append_dropWhile]
    exact h
  obtain ⟨t, ht⟩ := List.rdropWhile_prefix isPyWS (l.dropWhile isPyWS)
  exact nlOK_append_left (b := t) (ht ▸ h1)

/-- C3.  Text normalization is idempotent: for every input string `x`
(and any canonical-composition function `nfc` that fixes the already
normalized output, as Unicode NFC does), applying `normalize_text` twice
yields the same string as applying it once. -/
theorem normalize_text_idempotent (nfc : List Char → List Char) (x : List Char)
    (hnfc : nfc (normalize_text nfc x) = normalize_text nfc x) :
    normalize_text nfc (normalize_text nfc x) = normalize_text nfc x := by
  have hws : wsOK (normalize_text nfc x) :=
    wsOK_pyStrip (wsOK_collapseNL (wsOK_collapseWS (nfc x)))
  have hnl : nlOK (normalize_text nfc x) = true :=
    nlOK_pyStrip (nlOK_collapseNL (collapseWS (nfc x)))
  rw [show normalize_text nfc (normalize_text nfc x) =
      pyStrip (collapseNL (collapseWS (nfc (normalize_text nfc x)))) from rfl]
  rw [hnfc, collapseWS_eq_self hws, collapseNL_eq_self hnl]
  rw [show normalize_text nfc x = pyStrip (collapseNL (collapseWS (nfc x))) from rfl]
  exact pyStrip_idem _

/-- Witness for C3 at a concrete input (`nfc` instantiated with the identity,
which trivially fixes the output). -/
theorem normalize_text_idempotent_witness :
    normalize_text id (normalize_text id [' ', 'a', '\t', '\n', '\n', '\n', 'b', ' ']) =
      normalize_text id [' ', 'a', '\t', '\n', '\n', '\n', 'b', ' '] :=
  normalize_text_idempotent id [' ', 'a', '\t', '\n', '\n', '\n', 'b', ' '] rfl

/-! ### Parsed JSON values and the schema validator -/

/-- A parsed JSON value (`json.loads` output). -/
inductive JVal where
  | str : String → JVal
  | num : Int → JVal
  | bool : Bool → JVal
  | null : JVal
  | arr : List JVal → JVal
  | obj : List (String × JVal) → JVal
deriving Repr

/-- Key lookup in a parsed JSON object (Python dicts have unique keys). -/
def lookup (kvs : List (String × JVal)) (k : String) : Option JVal :=
  (kvs.find? (fun kv => kv.1 == k)).map Prod.snd

/-- Python `m.get(key, default)`: raises `AttributeError` when `m` is not a
dict (e.g. a string or number has no `.get`). -/
def pyGet : JVal → String → JVal → Except String JVal
  | JVal.obj kvs, k, dflt => Except.ok ((lookup kvs k).getD dflt)
  | _, _, _ => Except.error "AttributeError"

/-- Python `len(v)`: defined for strings, lists and dicts; raises
`TypeError` otherwise (numbers, booleans, `None` have no length). -/
def pyLen : JVal → Except String Nat
  | JVal.str s => Except.ok s.length
  | JVal.arr xs => Except.ok xs.length
  | JVal.obj kvs => Except.ok kvs.length
  | _ => Except.error "TypeError"

/-- Python `v == "assistant"`: equality of an arbitrary value with a string
(never raises; false for non-strings). -/
def isAssistantRole : JVal → Bool
  | JVal.str s => s == "assistant"
  | _ => false

/-- Python `str(v)` as used when formatting the invalid-role message (the
container cases are unreachable there: an unhashable role raises before
formatting). -/
def pyStr : JVal → String
  | JVal.str s => s
  | JVal.num n => toString n
  | JVal.bool true => "True"
  | JVal.bool false => "False"
  | JVal.null => "None"
  | JVal.arr _ => "<list>"
  | JVal.obj _ => "<dict>"

def VALID_ROLES : List String := ["system", "user", "assistant"]

/-- Python `v not in VALID_ROLES` (negated here): set membership hashes the
value, so an unhashable value (list, dict) raises `TypeError`. -/
def roleInValidRoles : JVal → Except String Bool
  | JVal.str s => Except.ok (VALID_ROLES.contains s)
  | JVal.arr _ => Except.error "TypeError"
  | JVal.obj _ => Except.error "TypeError"
  | _ => Except.ok false

/-- Python `s.strip()` on a `String`. -/
def pyStripS (s : String) : String := String.mk (pyStrip s.data)

/-- The per-message loop of `validate_chatml` (`for i, msg in
enumerate(messages)`): a non-dict entry is reported and skipped; a dict
entry is checked for `role` (present and recognized) and `content`
(present, a string, non-empty after strip). -/
def messageErrors (source : String) (index : Nat) : Nat → List JVal → Except String (List String)
  | _, [] => Except.ok []
  | i, JVal.obj kvs :: rest => do
    let roleErrs ←
      match lookup kvs "role" with
      | none => pure [("[" ++ source ++ ":" ++ toString index ++ "] Message " ++ toString i ++ " missing \x27role\x27")]
      | some r => do
        let ok ← roleInValidRoles r
        pure (if ok then []
          else [("[" ++ source ++ ":" ++ toString index ++ "] Message " ++ toString i ++ " invalid role: " ++ pyStr r)])
    let contentErrs :=
      match lookup kvs "content" with
      | none => [("[" ++ source ++ ":" ++ toString index ++ "] Message " ++ toString i ++ " missing \x27content\x27")]
      | some (JVal.str s) =>
        if (pyStripS s).length == 0 then
          [("[" ++ source ++ ":" ++ toString index ++ "] Message " ++ toString i ++ " has empty content")]
        else []
      | some _ => [("[" ++ source ++ ":" ++ toString index ++ "] Message " ++ toString i ++ " has empty content")]
    let tail ← messageErrors source index (i + 1) rest
    pure (roleErrs ++ contentErrs ++ tail)
  | i, _ :: rest => do
    let tail ← messageErrors source index (i + 1) rest
    pure (("[" ++ source ++ ":" ++ toString index ++ "] Message " ++ toString i ++ " is not a dict") :: tail)

/-- Embeds `any(m.get("role") == "assistant" for m in messages)`: Python `any`
short-circuits at the first `True`; `m.get` raises on a non-dict entry. -/
def anyAssistant : List JVal → Except String Bool
  | [] => Except.ok false
  | m :: rest => do
    let r ← pyGet m "role" JVal.null
    if isAssistantRole r then pure true else anyAssistant rest

/-- The assistant-minimum-length loop: for every message whose role is
`assistant`, `len(m.get("content", ""))` must be at least 20 (the `and`
short-circuits, so `len` is only evaluated for assistant messages). -/
def assistantLengthErrors (source : String) (index : Nat) :
    List JVal → Except String (List String)
  | [] => Except.ok []
  | m :: rest => do
    let r ← pyGet m "role" JVal.null
    if isAssistantRole r then do
      let c ← pyGet m "content" (JVal.str "")
      let n ← pyLen c
      let tail ← assistantLengthErrors source index rest
      if n < 20 then
        pure (("[" ++ source ++ ":" ++ toString index ++ "] Assistant response too short (" ++ toString n ++ " chars)") :: tail)
      else pure tail
    else assistantLengthErrors source index rest

/-- Embeds `validate_chatml(example, index, source)`: the record (called `example`
in the source, a keyword in Lean) is a parsed JSON object (`dict[str, Any]`).  Returns the list of violation
descriptions, or an uncaught Python exception (`Except.error`). -/
def validate_chatml (record : List (String × JVal)) (index : Nat) (source : String) :
    Except String (List String) :=
  match lookup record "messages" with
  | none => Except.ok [("[" ++ source ++ ":" ++ toString index ++ "] Missing \x27messages\x27 key")]
  | some mv =>
    match mv with
    | JVal.arr messages =>
      if messages.length < 2 then
        Except.ok
          [("[" ++ source ++ ":" ++ toString index ++ "] Too few messages (" ++ toString messages.length ++ "), need at least 2")]
      else do
        let msgErrs ← messageErrors source index 0 messages
        let hasA ← anyAssistant messages
        let aErrs ← assistantLengthErrors source index messages
        pure (msgErrs ++
          (if hasA then [] else [("[" ++ source ++ ":" ++ toString index ++ "] No assistant message found")]) ++
          aErrs)
    | _ => Except.ok [("[" ++ source ++ ":" ++ toString index ++ "] \x27messages\x27 is not a list")]

theorem exceptBindOk {ε : Type u} {α β : Type v} (a : α) (f : α → Except ε β) :
    (Except.ok a : Except ε α) >>= f = f a := rfl

/-- C1 (refutation of totality): on a record whose `messages` list has two
entries that are not dicts, the per-message loop of the validator reports them,
but the assistant-presence scan then evaluates `m.get("role")` on a
non-dict entry and raises `AttributeError` — the run aborts instead of
returning a violation list (the loader catches only `json.JSONDecodeError`). -/
theorem validate_chatml_raises_on_nondict_messages :
    validate_chatml [("messages", JVal.arr [JVal.str "a", JVal.str "b"])] 1 "seed.jsonl" =
      Except.error "AttributeError" := by
  rfl

/-- The validator as claim C5 words it: once `messages` is present and is a
list, the too-few-messages check and every remaining check are all
performed and reported together, none cutting off another.  (This
definition follows the claim, for comparison with `validate_chatml`.) -/
def validate_chatml_claimed (record : List (String × JVal)) (index : Nat) (source : String) :
    Except String (List String) :=
  match lookup record "messages" with
  | none => Except.ok [("[" ++ source ++ ":" ++ toString index ++ "] Missing \x27messages\x27 key")]
  | some mv =>
    match mv with
    | JVal.arr messages => do
      let tooFew :=
        if messages.length < 2 then
          [("[" ++ source ++ ":" ++ toString index ++ "] Too few messages (" ++ toString messages.length ++ "), need at least 2")]
        else []
      let msgErrs ← messageErrors source index 0 messages
      let hasA ← anyAssistant messages
      let aErrs ← assistantLengthErrors source index messages
      pure (tooFew ++ msgErrs ++
        (if hasA then [] else [("[" ++ source ++ ":" ++ toString index ++ "] No assistant message found")]) ++
        aErrs)
    | _ => Except.ok [("[" ++ source ++ ":" ++ toString index ++ "] \x27messages\x27 is not a list")]

/-- C5 counterexample: on a record with an empty `messages` list the code
returns only the too-few-messages violation, while the claimed
non-short-circuiting validator would also report the missing assistant —
so the too-few-messages check does cut off the remaining checks. -/
theorem validate_chatml_shortcircuit_counterexample :
    validate_chatml [("messages", JVal.arr [])] 1 "f" =
        Except.ok ["[f:1] Too few messages (0), need at least 2"] ∧
      validate_chatml_claimed [("messages", JVal.arr [])] 1 "f" =
        Except.ok ["[f:1] Too few messages (0), need at least 2",
          "[f:1] No assistant message found"] :=
  ⟨rfl, rfl⟩

/-- C5 (amended): for a record whose `messages` field is a list with at
least two entries, the per-message structure/role/content checks, the
assistant-presence check and the assistant-length check are all performed
and their violations concatenated — none of them short-circuits another;
a missing `messages`, a non-list `messages`, or fewer than two messages
cuts off the remaining checks. -/
theorem validate_chatml_no_shortcircuit_after_length
    (record : List (String × JVal)) (index : Nat) (source : String)
    (messages : List JVal) (e1 e3 : List String) (b : Bool)
    (hm : lookup record "messages" = some (JVal.arr messages))
    (hlen : 2 ≤ messages.length)
    (h1 : messageErrors source index 0 messages = Except.ok e1)
    (h2 : anyAssistant messages = Except.ok b)
    (h3 : assistantLengthErrors source index messages = Except.ok e3) :
    validate_chatml record index source =
      Except.ok (e1 ++
        (if b then [] else [("[" ++ source ++ ":" ++ toString index ++ "] No assistant message found")]) ++
        e3) := by
  have hnl : ¬ messages.length < 2 := by omega
  simp only [validate_chatml, hm, hnl, if_false, h1, h2, h3, exceptBindOk]
  rfl

/-- Witness for the amended C5 at a concrete record (two dict messages, the
assistant reply too short): all three check groups run; the assistant
check and the length check both contribute. -/
theorem validate_chatml_no_shortcircuit_witness :
    validate_chatml [("messages", JVal.arr
        [JVal.obj [("role", JVal.str "user"), ("content", JVal.str "Hi")],
         JVal.obj [("role", JVal.str "assistant"), ("content", JVal.str "ok")]])]
      3 "f.jsonl" =
      Except.ok ([] ++ (if true then [] else ["[f.jsonl:3] No assistant message found"]) ++
        ["[f.jsonl:3] Assistant response too short (2 chars)"]) :=
  validate_chatml_no_shortcircuit_after_length _ 3 "f.jsonl" _ [] _ true rfl
    (by decide) rfl rfl rfl

/-! ### Validated examples, the content hash and deduplication -/

/-- A message of a validated example. -/
structure Msg where
  role : String
  content : String
deriving Repr, DecidableEq

/-- A validated training record (its `messages` list). -/
structure Exmpl where
  messages : List Msg
deriving Repr, DecidableEq

/-- The `parts` list of `content_hash`: the stripped contents of the
messages whose role is `user` or `assistant`, in document order. -/
def hashParts (messages : List Msg) : List String :=
  (messages.filter (fun m => m.role == "user" || m.role == "assistant")).map
    (fun m => pyStripS m.content)

/-- Embeds `content_hash`: the digest `hashlib.sha256(...).hexdigest()[:16]` is kept as the
digest parameter `h` (a library primitive); the embedded part builds the
digest input: the parts joined by `"|"`. -/
def content_hash (h : String → String) (messages : List Msg) : String :=
  h (String.intercalate "|" (hashParts messages))

/-- The loop of `deduplicate`, with the `seen` set modelled as the list of
hashes inserted so far. -/
def dedupGo (h : String → String) (seen : List String) : List Exmpl → List Exmpl
  | [] => []
  | ex :: rest =>
    if seen.contains (content_hash h ex.messages) then dedupGo h seen rest
    else ex :: dedupGo h (content_hash h ex.messages :: seen) rest

/-- Embeds `deduplicate`: keep an example iff its content hash was not seen
earlier. -/
def deduplicate (h : String → String) (examples : List Exmpl) : List Exmpl :=
  dedupGo h [] examples

/-- First-occurrence-wins stable filter on a key: keep each element, and
drop every later element with the same key.  (This is how the claim
describes deduplication, for comparison with `deduplicate`.) -/
def firstOccurrences (key : Exmpl → String) : List Exmpl → List Exmpl
  | [] => []
  | x :: rest => x :: firstOccurrences key (rest.filter (fun y => !(key y == key x)))
termination_by l => l.length
decreasing_by
  exact Nat.lt_succ_of_le (List.length_filter_le _ _)

theorem firstOccurrences_sublist (key : Exmpl → String) :
    ∀ l : List Exmpl, List.Sublist (firstOccurrences key l) l
  | [] => by rw [show firstOccurrences key [] = [] by simp [firstOccurrences]]
  | x :: rest => by
    rw [show firstOccurrences key (x :: rest) =
        x :: firstOccurrences key (rest.filter (fun y => !(key y == key x))) by
      simp [firstOccurrences]]
    exact List.Sublist.cons₂ x
      ((firstOccurrences_sublist key _).trans (List.filter_sublist rest))
termination_by l => l.length
decreasing_by
  exact Nat.lt_succ_of_le (List.length_filter_le _ _)

theorem dedupGo_eq_firstOccurrences (h : String → String) :
    ∀ (l : List Exmpl) (seen : List String),
      dedupGo h seen l =
        firstOccurrences (fun ex => content_hash h ex.messages)
          (l.filter (fun y => !(seen.contains (content_hash h y.messages))))
  | [], _ => by simp [dedupGo, firstOccurrences]
  | x :: rest, seen => by
    by_cases hx : seen.contains (content_hash h x.messages) = true
    · rw [show dedupGo h seen (x :: rest) = dedupGo h seen rest by
        simp only [dedupGo]; rw [if_pos hx]]
      rw [dedupGo_eq_firstOccurrences h rest seen]
      rw [show (x :: rest).filter (fun y => !(seen.contains (content_hash h y.messages))) =
          rest.filter (fun y => !(seen.contains (content_hash h y.messages))) by
        rw [List.filter_cons]; rw [hx]; simp]
    · rw [show dedupGo h seen (x :: rest) =
          x :: dedupGo h (content_hash h x.messages :: seen) rest by
        simp only [dedupGo]; rw [if_neg hx]]
      rw [dedupGo_eq_firstOccurrences h rest (content_hash h x.messages :: seen)]
      rw [show (x :: rest).filter (fun y => !(seen.contains (content_hash h y.messages))) =
          x :: rest.filter (fun y => !(seen.contains (content_hash h y.messages))) by
        rw [List.filter_cons]
        rw [show seen.contains (content_hash h x.messages) = false from
          Bool.not_eq_true _ ▸ hx]
        simp]
      rw [show firstOccurrences (fun ex => content_hash h ex.messages)
          (x :: rest.filter (fun y => !(seen.contains (content_hash h y.messages)))) =
          x :: firstOccurrences (fun ex => content_hash h ex.messages)
            ((rest.filter (fun y => !(seen.contains (content_hash h y.messages)))).filter
              (fun y => !(content_hash h y.messages == content_hash h x.messages))) by
        simp [firstOccurrences]]
      have hfe : rest.filter
            (fun y => !((content_hash h x.messages :: seen).contains
              (content_hash h y.messages))) =
          (rest.filter (fun y => !(seen.contains (content_hash h y.messages)))).filter
            (fun y => !(content_hash h y.messages == content_hash h x.messages)) := by
        rw [List.filter_filter]
        apply List.filter_congr
        intro y _
        rw [List.contains_cons]
        cases hky : content_hash h y.messages == content_hash h x.messages <;>
          cases hcy : seen.contains (content_hash h y.messages) <;> simp [hky, hcy]
      rw [hfe]

/-- C4.  Deduplication is the order-preserving first-occurrence-wins filter
keyed on the content hash, and the hash ignores system messages: it is a
function of the sequence of stripped user/assistant contents alone. -/
theorem deduplicate_first_occurrence_wins (h : String → String) (examples : List Exmpl) :
    deduplicate h examples =
        firstOccurrences (fun ex => content_hash h ex.messages) examples ∧
      List.Sublist (deduplicate h examples) examples ∧
      ∀ ex1 ex2 : Exmpl, hashParts ex1.messages = hashParts ex2.messages →
        content_hash h ex1.messages = content_hash h ex2.messages := by
  have h1 : deduplicate h examples =
      firstOccurrences (fun ex => content_hash h ex.messages) examples := by
    rw [deduplicate, dedupGo_eq_firstOccurrences]
    congr 1
    rw [List.filter_eq_self]
    intro a _
    simp [List.contains]
  refine ⟨h1, ?_, ?_⟩
  · rw [h1]
    exact firstOccurrences_sublist _ examples
  · intro ex1 ex2 hparts
    rw [content_hash, content_hash, hparts]

/-- Witness for C4: two concrete examples that differ only in their system
message hash equal, so the later one is dropped; evaluated with the
identity digest. -/
theorem deduplicate_first_occurrence_wins_witness :
    content_hash id (Exmpl.mk [Msg.mk "system" "You are helpful.",
        Msg.mk "user" "Hi", Msg.mk "assistant" "Hello there, nice to meet you."]).messages =
      content_hash id (Exmpl.mk [Msg.mk "system" "You are terse.",
        Msg.mk "user" "Hi", Msg.mk "assistant" "Hello there, nice to meet you."]).messages :=
  (deduplicate_first_occurrence_wins id []).2.2 _ _ rfl

/-! ### Heuristic task-type classifier -/

/-- Python `str.lower()`, modelled on ASCII case (all keyword patterns are
ASCII). -/
def pyLower (s : String) : String := String.mk (s.data.map Char.toLower)

/-- Embeds `TASK_TYPE_KEYWORDS`: the ordered mapping from task type to its
regular-expression keyword patterns, exactly as declared in the source. -/
def TASK_TYPE_KEYWORDS : List (String × List String) :=
  [("post_generation", ["social media post", "create a.*post", "keywords.*topic"]),
   ("hashtag_generation", ["hashtag", "generate hashtags", "hashtag expert"]),
   ("content_variations", ["variation", "A/B testing", "variant"]),
   ("sentiment_analysis", ["sentiment", "analyze.*sentiment", "engagement potential"]),
   ("best_times", ["posting times", "best time", "optimal.*time"]),
   ("brand_voice", ["brand voice", "brand style", "adapt.*brand"])]

/-- Match the literal segments of a pattern (split on `.*`) against the
text after the anchor: each segment may be preceded by a gap of non-newline
characters (regex `.` does not match a newline). -/
def gapMatch : List (List Char) → List Char → Bool
  | [], _ => true
  | seg :: rest, u =>
    (List.range (1 + (u.takeWhile (fun c => !(c == '\n'))).length)).any
      (fun k => seg.isPrefixOf (u.drop k) && gapMatch rest ((u.drop k).drop seg.length))

/-- Embeds `re.search` for the fragment of regex the keyword table uses (literal
segments separated by `.*`): the match may start at any position of the
text; later segments follow across non-newline gaps. -/
def reSearch (segs : List (List Char)) (t : List Char) : Bool :=
  match segs with
  | [] => true
  | seg :: rest =>
    t.tails.any (fun u => seg.isPrefixOf u && gapMatch rest (u.drop seg.length))

/-- Split a pattern into its literal segments at each `.*` occurrence
(left to right, as `str.split(".*")` would). -/
def splitOnDotStar : List Char → List (List Char)
  | [] => [[]]
  | '.' :: '*' :: rest => [] :: splitOnDotStar rest
  | c :: rest =>
    match splitOnDotStar rest with
    | [] => [[c]]
    | seg :: segs => (c :: seg) :: segs

/-- Compile one keyword pattern: `re.IGNORECASE` is modelled by lowering the
pattern (the text is already lowered), and `.*` splits it into literal
segments. -/
def patternSegs (kw : String) : List (List Char) :=
  splitOnDotStar (pyLower kw).data

/-- The combined system+user content of an example:
`" ".join(...).lower()`. -/
def combinedContent (messages : List Msg) : String :=
  pyLower (String.intercalate " "
    ((messages.filter (fun m => m.role == "system" || m.role == "user")).map Msg.content))

/-- Does any keyword pattern of a task type match the combined content? -/
def anyKeywordMatch (kws : List String) (messages : List Msg) : Bool :=
  kws.any (fun kw => reSearch (patternSegs kw) (combinedContent messages).data)

/-- Embeds `detect_task_type`: first task type (in declaration order) with a
matching keyword pattern, else `"unknown"`. -/
def detect_task_type (messages : List Msg) : String :=
  match TASK_TYPE_KEYWORDS.find? (fun p => anyKeywordMatch p.2 messages) with
  | some p => p.1
  | none => "unknown"

theorem find?_eq_some_of_first_index {α} (P : α → Bool) :
    ∀ (l : List α) (i : Nat) (p : α), l[i]? = some p → P p = true →
      (∀ j q, j < i → l[j]? = some q → P q = false) → l.find? P = some p
  | [], i, p, hget, _, _ => by simp at hget
  | x :: t, 0, p, hget, hP, _ => by
    have hxp : x = p := by simpa using hget
    subst hxp
    rw [List.find?_cons_of_pos _ hP]
  | x :: t, i + 1, p, hget, hP, hmin => by
    have hx : P x = false := hmin 0 x (Nat.succ_pos i) (by simp)
    rw [List.find?_cons_of_neg _ (by simp [hx])]
    exact find?_eq_some_of_first_index P t i p (by simpa using hget) hP
      (fun j q hj hq => hmin (j + 1) q (Nat.succ_lt_succ hj) (by simpa using hq))

/-- C7.  The classifier scans the task types in the declared order
(post_generation, hashtag_generation, content_variations,
sentiment_analysis, best_times, brand_voice) against the combined lowered
system+user content and returns the first with a matching pattern, else
`"unknown"` — an example matching several task types is tagged with the
earliest. -/
theorem detect_task_type_first_match_wins :
    TASK_TYPE_KEYWORDS.map Prod.fst =
        ["post_generation", "hashtag_generation", "content_variations",
         "sentiment_analysis", "best_times", "brand_voice"] ∧
      (∀ messages : List Msg,
        (∀ p ∈ TASK_TYPE_KEYWORDS, anyKeywordMatch p.2 messages = false) →
        detect_task_type messages = "unknown") ∧
      ∀ (messages : List Msg) (i : Nat) (p : String × List String),
        TASK_TYPE_KEYWORDS[i]? = some p →
        anyKeywordMatch p.2 messages = true →
        (∀ j q, j < i → TASK_TYPE_KEYWORDS[j]? = some q →
          anyKeywordMatch q.2 messages = false) →
        detect_task_type messages = p.1 := by
  refine ⟨rfl, ?_, ?_⟩
  · intro messages hall
    rw [detect_task_type, List.find?_eq_none.mpr (fun x hx => by simp [hall x hx])]
  · intro messages i p hget hP hmin
    rw [detect_task_type, find?_eq_some_of_first_index _ TASK_TYPE_KEYWORDS i p hget hP hmin]

/-- Witness for C7: a user message containing both "sentiment" and "best
time" keywords is tagged `sentiment_analysis`, the earlier of the two
matching task types. -/
theorem detect_task_type_first_match_wins_witness :
    detect_task_type [Msg.mk "user" "Analyze SENTIMENT and the best time"] =
      "sentiment_analysis" :=
  detect_task_type_first_match_wins.2.2
    [Msg.mk "user" "Analyze SENTIMENT and the best time"] 3
    ("sentiment_analysis", ["sentiment", "analyze.*sentiment", "engagement potential"])
    (by decide) (by decide)
    (by
      intro j q hj hq
      match j with
      | 0 =>
        have hq' : ("post_generation",
            ["social media post", "create a.*post", "keywords.*topic"]) = q := by
          simpa [TASK_TYPE_KEYWORDS] using hq
        subst hq'
        decide
      | 1 =>
        have hq' : ("hashtag_generation",
            ["hashtag", "generate hashtags", "hashtag expert"]) = q := by
          simpa [TASK_TYPE_KEYWORDS] using hq
        subst hq'
        decide
      | 2 =>
        have hq' : ("content_variations", ["variation", "A/B testing", "variant"]) = q := by
          simpa [TASK_TYPE_KEYWORDS] using hq
        subst hq'
        decide
      | j + 3 => exact absurd hj (by omega))

/-! ### Language classifier and statistics -/

/-- Python `\w` (word character), modelled on ASCII (the indicator words
are ASCII). -/
def isWordChar (c : Char) : Bool := c.isAlphanum || c == '_'

/-- Embeds `LANGUAGE_PATTERNS`: each language has a single pattern of the form
`\b(w1|w2|...)\b`; it is embedded as its list of alternative words. -/
def LANGUAGE_PATTERNS : List (String × List (List String)) :=
  [("de", [["und", "der", "die", "das", "ist", "fuer", "mit", "ein", "eine",
      "nicht", "wir", "auf"]]),
   ("en", [["the", "and", "is", "for", "with", "that", "this", "are", "was",
      "not", "you", "your"]]),
   ("fr", [["les", "des", "une", "est", "pour", "dans", "qui", "par", "sur",
      "avec", "nous", "vous"]]),
   ("es", [["los", "las", "una", "por", "para", "con", "del", "que", "como",
      "mas", "nuestro"]]),
   ("pt", [["uma", "dos", "das", "para", "com", "por", "nos", "seu", "nossa",
      "mais", "como"]])]

/-- Does some alternative of `\b(w1|...)\b` match at position `i` of `t`?
(Both boundaries hold: the characters before and after the word, when
present, are not word characters.) -/
def wordMatchAt (words : List String) (t : List Char) (i : Nat) : Bool :=
  words.any (fun w =>
    w.data.isPrefixOf (t.drop i) &&
    (decide (i = 0) || !(isWordChar (t.getD (i - 1) ' '))) &&
    !(isWordChar (t.getD (i + w.length) ' ')))

/-- Embeds `len(re.findall(r"\b(w1|...)\b", text))`: the number of positions with
a whole-word match (whole-word matches cannot overlap, so this is the
findall count). -/
def countWordMatches (words : List String) (t : List Char) : Nat :=
  ((List.range t.length).filter (wordMatchAt words t)).length

/-- First maximum of the scores (Python `max` over a dict with a key
function returns the first key attaining the maximum, in insertion
order). -/
def firstMax : List (String × Nat) → Option (String × Nat)
  | [] => none
  | p :: rest =>
    match firstMax rest with
    | none => some p
    | some q => if p.2 < q.2 then some q else some p

/-- Embeds `detect_language`: score each language by its indicator-word count over
the lowered text; return the first language with the maximal count, or
`"unknown"` when every count is zero. -/
def detect_language (text : String) : String :=
  match firstMax (LANGUAGE_PATTERNS.map (fun p =>
    (p.1, (p.2.map (fun ws => countWordMatches ws (pyLower text).data)).foldl
      (fun a b => a + b) 0))) with
  | none => "unknown"
  | some q => if q.2 = 0 then "unknown" else q.1

/-- The `for m in messages: if role == "assistant": text = content; break`
loop of `compute_statistics`: the content of the earliest assistant
message (empty string when there is none). -/
def assistantText : List Msg → String
  | [] => ""
  | m :: rest => if m.role == "assistant" then m.content else assistantText rest

/-- The statistics record: total count and the two frequency tables,
modelled as count functions (`most_common` only orders the rendering). -/
structure Stats where
  total : Nat
  task_types : String → Nat
  languages : String → Nat

/-- Embeds `compute_statistics`: one pass over the examples, counting the task
type of each example and the language of its first assistant message. -/
def compute_statistics (examples : List Exmpl) : Stats :=
  { total := examples.length
    task_types := examples.foldl (fun acc ex => fun s =>
      if s = detect_task_type ex.messages then acc s + 1 else acc s) (fun _ => 0)
    languages := examples.foldl (fun acc ex => fun s =>
      if s = detect_language (assistantText ex.messages) then acc s + 1 else acc s)
      (fun _ => 0) }

theorem foldl_count_eq {β : Type} (f : β → String) :
    ∀ (l : List β) (acc : String → Nat) (s : String),
      (l.foldl (fun acc ex => fun t => if t = f ex then acc t + 1 else acc t) acc) s =
        acc s + (l.map f).count s
  | [], acc, s => by simp
  | x :: t, acc, s => by
    rw [List.foldl_cons, foldl_count_eq f t _ s, List.map_cons]
    by_cases hs : s = f x
    · rw [if_pos hs, List.count_cons]
      simp [hs]
      omega
    · rw [if_neg hs, List.count_cons]
      have : (f x == s) = false := by
        simp
        exact fun he => hs he.symm
      simp [this]

/-- C10.  The language distribution counts `detect_language` of the first
assistant message of each example: each example contributes the language of
its earliest assistant-role message, and the messages after that one (in
particular any later assistant messages) have no effect on the text the
language is detected from. -/
theorem compute_statistics_language_first_assistant :
    (∀ (examples : List Exmpl) (s : String),
      (compute_statistics examples).languages s =
        (examples.map (fun ex => detect_language (assistantText ex.messages))).count s) ∧
      ∀ (pre rest : List Msg) (c : String), (∀ m ∈ pre, ¬ m.role = "assistant") →
        assistantText (pre ++ Msg.mk "assistant" c :: rest) = c := by
  constructor
  · intro examples s
    rw [compute_statistics]
    exact (foldl_count_eq _ examples (fun _ => 0) s).trans (by simp)
  · intro pre rest c hpre
    induction pre with
    | nil => simp [assistantText]
    | cons m t ih =>
      rw [List.cons_append,
        show assistantText (m :: (t ++ Msg.mk "assistant" c :: rest)) =
          if m.role == "assistant" then m.content
          else assistantText (t ++ Msg.mk "assistant" c :: rest) from rfl]
      rw [if_neg (by simpa using hpre m (List.mem_cons_self m t))]
      exact ih fun x hx => hpre x (List.mem_cons_of_mem m hx)

/-- Witness for C10: the earliest assistant message is used even when a
second assistant message (in another language) follows. -/
theorem compute_statistics_language_first_assistant_witness :
    assistantText [Msg.mk "system" "s", Msg.mk "user" "u",
        Msg.mk "assistant" "Der und die das sind Artikel",
        Msg.mk "assistant" "the and is for with that"] =
      "Der und die das sind Artikel" :=
  compute_statistics_language_first_assistant.2
    [Msg.mk "system" "s", Msg.mk "user" "u"]
    [Msg.mk "assistant" "the and is for with that"]
    "Der und die das sind Artikel" (by decide)

/-! ### Deterministic splitter -/

/-- One in-place swap `x[i], x[j] = x[j], x[i]` (identity when an index is
out of range, which the shuffle never produces). -/
def swapAt {α : Type} (l : List α) (i j : Nat) : List α :=
  if hi : i < l.length then
    if hj : j < l.length then
      (l.set i (l.get ⟨j, hj⟩)).set j (l.get ⟨i, hi⟩)
    else l
  else l

/-- The Fisher-Yates loop of `random.shuffle`:
`for i in reversed(range(1, len(x))): j = _randbelow(i+1); swap x[i], x[j]`.
The pseudo-random source is the parameter `randbelow` (state in, bound in,
draw and new state out); the draw is reduced mod its bound, which
`_randbelow` guarantees anyway. -/
def shuffleLoop {α σ : Type} (randbelow : σ → Nat → Nat × σ) :
    Nat → σ → List α → List α
  | 0, _, xs => xs
  | i + 1, g, xs =>
    let d := randbelow g (i + 2)
    shuffleLoop randbelow i d.2 (swapAt xs (i + 1) (d.1 % (i + 2)))

/-- Round a rational to the nearest integer, ties to even. -/
def roundHalfEven (q : ℚ) : ℤ :=
  if q - ⌊q⌋ < 1 / 2 then ⌊q⌋
  else if 1 / 2 < q - ⌊q⌋ then ⌊q⌋ + 1
  else if ⌊q⌋ % 2 = 0 then ⌊q⌋ else ⌊q⌋ + 1

/-- The IEEE-754 double product of `x` and `y` (given as their exact
rational values), for a product lying in the normal-range binade
`[2 ^ e, 2 ^ (e + 1))`: the exact product is rounded to 53 significant
bits, half to even (the spacing of doubles in that binade is
`2 ^ e / 2 ^ 52`). -/
def doubleMulPos (e : Nat) (x y : ℚ) : ℚ :=
  (roundHalfEven (x * y * 2 ^ 52 / 2 ^ e) : ℚ) * 2 ^ e / 2 ^ 52

/-- Embeds `split_data`: shuffle a copy of the list with a generator
freshly seeded from `seed` (`random.Random(seed)` is the parameter
`init`), then split at `split_idx = max(1, int(n * train_ratio))`.  The
product `n * train_ratio` is computed in double-precision floating point,
a runtime primitive kept as the parameter `fmul` (the value of the
resulting double is an exact rational; `doubleMulPos` with the right
binade is that product); `int(...)` truncates the non-negative product,
i.e. takes its floor. -/
def split_data {σ : Type} (fmul : ℚ → ℚ → ℚ) (randbelow : σ → Nat → Nat × σ)
    (init : Int → σ) (examples : List Exmpl) (train_ratio : ℚ) (seed : Int) :
    List Exmpl × List Exmpl :=
  let shuffled := shuffleLoop randbelow (examples.length - 1) (init seed) examples
  let split_idx := max 1 (Int.toNat ⌊fmul (examples.length : ℚ) train_ratio⌋)
  (shuffled.take split_idx, shuffled.drop split_idx)

theorem get_cons_set_perm {α : Type} :
    ∀ (t : List α) (m : Nat) (hm : m < t.length) (x : α),
      (t.get ⟨m, hm⟩ :: t.set m x).Perm (x :: t)
  | y :: s, 0, _, x => by simpa using List.Perm.swap x y s
  | y :: s, m + 1, hm, x => by
    have ih := get_cons_set_perm s m (by simpa using hm) x
    simp only [List.get_cons_succ, List.set_cons_succ]
    exact (List.Perm.swap y _ _).trans ((ih.cons y).trans (List.Perm.swap x y s))

theorem set_set_perm {α : Type} :
    ∀ (l : List α) (i j : Nat) (hi : i < l.length) (hj : j < l.length),
      ((l.set i (l.get ⟨j, hj⟩)).set j (l.get ⟨i, hi⟩)).Perm l
  | x :: t, 0, 0, _, _ => by simp
  | x :: t, 0, m + 1, _, hj => by
    simpa using get_cons_set_perm t m (by simpa using hj) x
  | x :: t, n + 1, 0, hi, _ => by
    simpa using get_cons_set_perm t n (by simpa using hi) x
  | x :: t, n + 1, m + 1, hi, hj => by
    simpa using (set_set_perm t n m (by simpa using hi) (by simpa using hj)).cons x

theorem swapAt_perm {α : Type} (l : List α) (i j : Nat) : (swapAt l i j).Perm l := by
  unfold swapAt
  split
  · split
    · exact set_set_perm l i j (by assumption) (by assumption)
    · exact List.Perm.refl l
  · exact List.Perm.refl l

theorem shuffleLoop_perm {α σ : Type} (randbelow : σ → Nat → Nat × σ) :
    ∀ (i : Nat) (g : σ) (xs : List α), (shuffleLoop randbelow i g xs).Perm xs
  | 0, _, xs => by
    rw [show shuffleLoop randbelow 0 _ xs = xs from rfl]
  | i + 1, g, xs =>
    (shuffleLoop_perm randbelow i _ _).trans (swapAt_perm xs (i + 1) _)

/-- C2 counterexample.  The original claim asserts the train set is the
first `max 1 ⌊n * r⌋` elements, with an exact-arithmetic floor.  At
`n = 10` and `r` the double nearest 0.3 (the exact rational
`5404319552844595 / 2 ^ 54`), the exact product is `2.99999999999999988…`
with floor 2 — but the double product rounds up to exactly `3.0` (the
product lies in the binade `[2, 4)` within half an ulp of 3), so the
program computes `int(10 * 0.3) = 3` and takes a train set of 3 elements,
not 2. -/
theorem split_data_exact_floor_counterexample :
    (split_data (doubleMulPos 1) (fun _ _ => (0, ())) (fun _ => ())
        (List.replicate 10 (Exmpl.mk [])) (5404319552844595 / 2 ^ 54) 42).1.length = 3 ∧
      max 1 (Int.toNat ⌊((List.replicate 10 (Exmpl.mk [] : Exmpl)).length : ℚ) *
          (5404319552844595 / 2 ^ 54)⌋) = 2 ∧
      (split_data (doubleMulPos 1) (fun _ _ => (0, ())) (fun _ => ())
          (List.replicate 10 (Exmpl.mk [])) (5404319552844595 / 2 ^ 54) 42).1.length ≠
        max 1 (Int.toNat ⌊((List.replicate 10 (Exmpl.mk [] : Exmpl)).length : ℚ) *
          (5404319552844595 / 2 ^ 54)⌋) ∧
      (2 : ℚ) ^ 1 ≤ (10 : ℚ) * (5404319552844595 / 2 ^ 54) ∧
      (10 : ℚ) * (5404319552844595 / 2 ^ 54) < (2 : ℚ) ^ 2 := by
  have harg : ((10 : ℚ) * (5404319552844595 / 2 ^ 54) * 2 ^ 52 / 2 ^ 1) =
      27021597764222975 / 4 := by norm_num
  have hfl : ⌊(27021597764222975 / 4 : ℚ)⌋ = 6755399441055743 := by
    rw [Int.floor_eq_iff]
    norm_num
  have hmul : doubleMulPos 1 10 (5404319552844595 / 2 ^ 54) = 3 := by
    simp only [doubleMulPos, roundHalfEven]
    rw [harg, hfl]
    norm_num
  have hcast : ((List.replicate 10 (Exmpl.mk [] : Exmpl)).length : ℚ) = 10 := by simp
  have hk3 : max 1 (Int.toNat ⌊doubleMulPos 1
      ((List.replicate 10 (Exmpl.mk [] : Exmpl)).length : ℚ)
      (5404319552844595 / 2 ^ 54)⌋) = 3 := by
    rw [hcast, hmul]
    norm_num
    decide
  have hfl2 : ⌊((List.replicate 10 (Exmpl.mk [] : Exmpl)).length : ℚ) *
      (5404319552844595 / 2 ^ 54)⌋ = 2 := by
    rw [hcast, Int.floor_eq_iff]
    norm_num
  have hk2 : max 1 (Int.toNat ⌊((List.replicate 10 (Exmpl.mk [] : Exmpl)).length : ℚ) *
      (5404319552844595 / 2 ^ 54)⌋) = 2 := by
    rw [hfl2]
    norm_num
    decide
  have hshuf : (shuffleLoop (fun _ _ => ((0 : Nat), ()))
      ((List.replicate 10 (Exmpl.mk [] : Exmpl)).length - 1) ()
      (List.replicate 10 (Exmpl.mk [] : Exmpl))).length = 10 := by
    rw [(shuffleLoop_perm _ _ _ _).length_eq]
    simp
  have hprog : (split_data (doubleMulPos 1) (fun _ _ => (0, ())) (fun _ => ())
      (List.replicate 10 (Exmpl.mk [])) (5404319552844595 / 2 ^ 54) 42).1.length = 3 := by
    simp only [split_data]
    rw [hk3, List.length_take, hshuf]
    decide
  refine ⟨hprog, hk2, ?_, by norm_num, by norm_num⟩
  rw [hprog, hk2]
  omega

/-- C2 (amended).  For a non-empty input, a ratio in (0,1] and any seed,
`split_data` returns the first `k` elements and the remaining `n - k`
elements of one permutation of the input, where
`k = max 1 ⌊fmul n r⌋` and `fmul` is the double-precision product — which,
being correctly rounded, never exceeds the representable bound `n` when
`r ≤ 1` (hypothesis `hfm`): the lengths sum to `n`, the two outputs
together are a permutation of the input (nothing dropped or duplicated),
and `n = 1` gives a singleton train set and empty validation. -/
theorem split_data_partition {σ : Type} (fmul : ℚ → ℚ → ℚ)
    (randbelow : σ → Nat → Nat × σ) (init : Int → σ)
    (examples : List Exmpl) (train_ratio : ℚ) (seed : Int)
    (hne : examples ≠ []) (_hr0 : 0 < train_ratio) (_hr1 : train_ratio ≤ 1)
    (hfm : fmul (examples.length : ℚ) train_ratio ≤ (examples.length : ℚ)) :
    ∃ permuted : List Exmpl,
      permuted.Perm examples ∧
      split_data fmul randbelow init examples train_ratio seed =
        (permuted.take (max 1 (Int.toNat ⌊fmul (examples.length : ℚ) train_ratio⌋)),
         permuted.drop (max 1 (Int.toNat ⌊fmul (examples.length : ℚ) train_ratio⌋))) ∧
      (split_data fmul randbelow init examples train_ratio seed).1.length =
        max 1 (Int.toNat ⌊fmul (examples.length : ℚ) train_ratio⌋) ∧
      (split_data fmul randbelow init examples train_ratio seed).1.length +
          (split_data fmul randbelow init examples train_ratio seed).2.length =
        examples.length ∧
      ((split_data fmul randbelow init examples train_ratio seed).1 ++
          (split_data fmul randbelow init examples train_ratio seed).2).Perm examples ∧
      (examples.length = 1 →
        (split_data fmul randbelow init examples train_ratio seed).1.length = 1 ∧
          (split_data fmul randbelow init examples train_ratio seed).2 = []) := by
  have hn1 : 1 ≤ examples.length := by
    cases hx : examples with
    | nil => exact absurd hx hne
    | cons a t => simp [hx]
  have hkn : max 1 (Int.toNat ⌊fmul (examples.length : ℚ) train_ratio⌋) ≤
      examples.length := by
    have h1 : ⌊fmul (examples.length : ℚ) train_ratio⌋ ≤ (examples.length : Int) := by
      calc ⌊fmul (examples.length : ℚ) train_ratio⌋ ≤ ⌊(examples.length : ℚ)⌋ :=
            Int.floor_le_floor hfm
        _ = (examples.length : Int) := by simp
    omega
  set k := max 1 (Int.toNat ⌊fmul (examples.length : ℚ) train_ratio⌋) with hk
  set permuted := shuffleLoop randbelow (examples.length - 1) (init seed) examples with hperm
  have hp : permuted.Perm examples := shuffleLoop_perm randbelow _ _ _
  have hlen : permuted.length = examples.length := hp.length_eq
  have heq : split_data fmul randbelow init examples train_ratio seed =
      (permuted.take k, permuted.drop k) := rfl
  refine ⟨permuted, hp, heq, ?_, ?_, ?_, ?_⟩
  · rw [heq]
    simp [List.length_take, hlen]
    omega
  · rw [heq]
    simp [List.length_take, List.length_drop, hlen]
    omega
  · rw [heq]
    simpa [List.take_append_drop] using hp
  · intro h1
    constructor
    · rw [heq]
      simp [List.length_take, hlen, h1]
      omega
    · rw [heq]
      have : k = 1 := by omega
      rw [this]
      refine List.eq_nil_of_length_eq_zero ?_
      simp [List.length_drop, hlen]
      omega

/-- Witness for the amended C2 at a concrete two-element input, ratio 9/10,
a dummy generator and the double product in the binade `[1, 2)`. -/
theorem split_data_partition_witness :
    ∃ permuted : List Exmpl,
      permuted.Perm [Exmpl.mk [], Exmpl.mk [Msg.mk "user" "x"]] ∧
      split_data (doubleMulPos 0) (fun _ _ => (0, ())) (fun _ => ())
          [Exmpl.mk [], Exmpl.mk [Msg.mk "user" "x"]] (9 / 10) 42 =
        (permuted.take (max 1 (Int.toNat ⌊doubleMulPos 0
            (([Exmpl.mk [], Exmpl.mk [Msg.mk "user" "x"]].length : ℚ)) (9 / 10)⌋)),
         permuted.drop (max 1 (Int.toNat ⌊doubleMulPos 0
            (([Exmpl.mk [], Exmpl.mk [Msg.mk "user" "x"]].length : ℚ)) (9 / 10)⌋))) ∧
      (split_data (doubleMulPos 0) (fun _ _ => (0, ())) (fun _ => ())
          [Exmpl.mk [], Exmpl.mk [Msg.mk "user" "x"]] (9 / 10) 42).1.length =
        max 1 (Int.toNat ⌊doubleMulPos 0
          (([Exmpl.mk [], Exmpl.mk [Msg.mk "user" "x"]].length : ℚ)) (9 / 10)⌋) ∧
      (split_data (doubleMulPos 0) (fun _ _ => (0, ())) (fun _ => ())
          [Exmpl.mk [], Exmpl.mk [Msg.mk "user" "x"]] (9 / 10) 42).1.length +
          (split_data (doubleMulPos 0) (fun _ _ => (0, ())) (fun _ => ())
            [Exmpl.mk [], Exmpl.mk [Msg.mk "user" "x"]] (9 / 10) 42).2.length =
        [Exmpl.mk [], Exmpl.mk [Msg.mk "user" "x"]].length ∧
      ((split_data (doubleMulPos 0) (fun _ _ => (0, ())) (fun _ => ())
          [Exmpl.mk [], Exmpl.mk [Msg.mk "user" "x"]] (9 / 10) 42).1 ++
          (split_data (doubleMulPos 0) (fun _ _ => (0, ())) (fun _ => ())
            [Exmpl.mk [], Exmpl.mk [Msg.mk "user" "x"]] (9 / 10) 42).2).Perm
        [Exmpl.mk [], Exmpl.mk [Msg.mk "user" "x"]] ∧
      ([Exmpl.mk [], Exmpl.mk [Msg.mk "user" "x"]].length = 1 →
        (split_data (doubleMulPos 0) (fun _ _ => (0, ())) (fun _ => ())
          [Exmpl.mk [], Exmpl.mk [Msg.mk "user" "x"]] (9 / 10) 42).1.length = 1 ∧
          (split_data (doubleMulPos 0) (fun _ _ => (0, ())) (fun _ => ())
            [Exmpl.mk [], Exmpl.mk [Msg.mk "user" "x"]] (9 / 10) 42).2 = []) :=
  split_data_partition (doubleMulPos 0) (fun _ _ => (0, ())) (fun _ => ())
    [Exmpl.mk [], Exmpl.mk [Msg.mk "user" "x"]] (9 / 10) 42
    (by simp) (by norm_num) (by norm_num)
    (by
      have hc : (([Exmpl.mk [], Exmpl.mk [Msg.mk "user" "x"]].length : ℚ)) = 2 := by simp
      rw [hc]
      have harg : ((2 : ℚ) * (9 / 10) * 2 ^ 52 / 2 ^ 0) = 40532396646334464 / 5 := by
        norm_num
      have hfl : ⌊(40532396646334464 / 5 : ℚ)⌋ = 8106479329266892 := by
        rw [Int.floor_eq_iff]
        norm_num
      simp only [doubleMulPos, roundHalfEven]
      rw [harg, hfl]
      norm_num)

/-- C6.  The splitter is deterministic: it reconstructs its generator from
the seed on every call, so two invocations with the same seed, ratio and
input (and the same generator implementation) return identical train and
validation sequences. -/
theorem split_data_deterministic {σ : Type} (fmul : ℚ → ℚ → ℚ)
    (randbelow : σ → Nat → Nat × σ)
    (init : Int → σ) (ex1 ex2 : List Exmpl) (r1 r2 : ℚ) (s1 s2 : Int)
    (hex : ex1 = ex2) (hr : r1 = r2) (hs : s1 = s2) :
    split_data fmul randbelow init ex1 r1 s1 =
      split_data fmul randbelow init ex2 r2 s2 := by
  rw [hex, hr, hs]

/-- Witness for C6 at a concrete input and seed. -/
theorem split_data_deterministic_witness :
    split_data (doubleMulPos 0) (fun _ m => (m - 1, ())) (fun _ => ())
        [Exmpl.mk [], Exmpl.mk [Msg.mk "user" "x"]] (9 / 10) 42 =
      split_data (doubleMulPos 0) (fun _ m => (m - 1, ())) (fun _ => ())
        [Exmpl.mk [], Exmpl.mk [Msg.mk "user" "x"]] (9 / 10) 42 :=
  split_data_deterministic (doubleMulPos 0) (fun _ m => (m - 1, ())) (fun _ => ())
    [Exmpl.mk [], Exmpl.mk [Msg.mk "user" "x"]]
    [Exmpl.mk [], Exmpl.mk [Msg.mk "user" "x"]] (9 / 10) (9 / 10) 42 42 rfl rfl rfl

/-! ### Output encoding and the main pipeline -/

/-- One hex digit (lowercase), for `\uXXXX` escapes. -/
def hexDigit (n : Nat) : Char :=
  if n < 10 then Char.ofNat (48 + n) else Char.ofNat (97 + (n - 10))

/-- Embeds the `json.dumps` escaping of one character with `ensure_ascii=False`: only
the quote, the backslash and ASCII control characters are escaped;
everything else — in particular every non-ASCII character — is written as
itself. -/
def jsonEscapeChar (c : Char) : List Char :=
  if c = '"' then ['\\', '"']
  else if c = '\\' then ['\\', '\\']
  else if c = '\n' then ['\\', 'n']
  else if c = '\t' then ['\\', 't']
  else if c = '\r' then ['\\', 'r']
  else if c = '\x08' then ['\\', 'b']
  else if c = '\x0c' then ['\\', 'f']
  else if c.toNat < 0x20 then
    ['\\', 'u', '0', '0', hexDigit (c.toNat / 16), hexDigit (c.toNat % 16)]
  else [c]

/-- JSON encoding of a string value. -/
def jsonString (s : String) : String :=
  String.mk ('"' :: s.data.foldr (fun c acc => jsonEscapeChar c ++ acc) ['"'])

/-- Embeds `json.dumps` of one message object, with the default separators. -/
def dumpsMsg (m : Msg) : String :=
  "\x7b\"role\": " ++ jsonString m.role ++ ", \"content\": " ++
    jsonString m.content ++ "\x7d"

/-- Embeds `json.dumps(ex, ensure_ascii=False)` for one example: the `messages`
array keeps its original order. -/
def dumpsExample (ex : Exmpl) : String :=
  "\x7b\"messages\": [" ++ String.intercalate ", " (ex.messages.map dumpsMsg) ++ "]\x7d"

/-- A written output file: `f.write(json.dumps(ex, ensure_ascii=False) + "\n")`
per example. -/
def encodeLines (examples : List Exmpl) : String :=
  String.join (examples.map (fun ex => dumpsExample ex ++ "\n"))

/-- The result of a successful run: the files written (name and content)
and the data behind them. -/
structure RunOutput where
  files : List (String × String)
  stats : Stats
  train : List Exmpl
  val : List Exmpl

/-- The post-loading part of `main`: with zero loaded examples the run
exits with an error (`sys.exit(1)`) before deduplication, splitting,
statistics or any write; otherwise it deduplicates, splits, computes
statistics and writes `train.jsonl` and `val.jsonl` into the output
directory. -/
def mainPipeline {σ : Type} (h : String → String) (fmul : ℚ → ℚ → ℚ)
    (randbelow : σ → Nat → Nat × σ)
    (init : Int → σ) (seed_data feedback_data : List Exmpl) (train_ratio : ℚ) :
    Except String RunOutput :=
  let all_examples := seed_data ++ feedback_data
  if all_examples.isEmpty then
    Except.error "No valid training examples found!"
  else
    let deduped := deduplicate h all_examples
    let tv := split_data fmul randbelow init deduped train_ratio 42
    Except.ok
      { files := [("train.jsonl", encodeLines tv.1), ("val.jsonl", encodeLines tv.2)]
        stats := compute_statistics deduped
        train := tv.1
        val := tv.2 }

/-- C8.  With zero valid examples loaded from the two sources the pipeline
terminates with an error and produces no output: the result carries no
`RunOutput`, so no train or validation file is written. -/
theorem mainPipeline_empty_corpus_fatal {σ : Type} (h : String → String)
    (fmul : ℚ → ℚ → ℚ) (randbelow : σ → Nat → Nat × σ) (init : Int → σ)
    (seed_data feedback_data : List Exmpl) (train_ratio : ℚ)
    (hempty : seed_data ++ feedback_data = []) :
    mainPipeline h fmul randbelow init seed_data feedback_data train_ratio =
      Except.error "No valid training examples found!" := by
  rw [mainPipeline]
  rw [if_pos (by rw [hempty]; rfl)]

/-- Witness for C8: two empty source batches. -/
theorem mainPipeline_empty_corpus_fatal_witness :
    mainPipeline id (fun x y => x * y) (fun _ _ => (0, ())) (fun _ => ()) [] [] (9 / 10) =
      Except.error "No valid training examples found!" :=
  mainPipeline_empty_corpus_fatal id (fun x y => x * y) (fun _ _ => (0, ())) (fun _ => ())
    [] [] (9 / 10) rfl

/-- The names of the files a run writes (none when the run fails). -/
def outputFileNames (r : Except String RunOutput) : List String :=
  match r with
  | Except.ok out => out.files.map Prod.fst
  | Except.error _ => []

/-- C9 counterexample: on a successful run the two output files are named
`train.jsonl` and `val.jsonl`; no file named `validation.jsonl` is
written, contrary to the claim. -/
theorem output_filename_counterexample :
    outputFileNames (mainPipeline id (fun x y => x * y) (fun _ _ => (0, ())) (fun _ => ())
        [Exmpl.mk [Msg.mk "user" "hi"]] [] (9 / 10)) =
      ["train.jsonl", "val.jsonl"] ∧
    "validation.jsonl" ∉ outputFileNames
      (mainPipeline id (fun x y => x * y) (fun _ _ => (0, ())) (fun _ => ())
        [Exmpl.mk [Msg.mk "user" "hi"]] [] (9 / 10)) := by
  constructor
  · rfl
  · intro hmem
    rw [show outputFileNames
        (mainPipeline id (fun x y => x * y) (fun _ _ => (0, ())) (fun _ => ())
        [Exmpl.mk [Msg.mk "user" "hi"]] [] (9 / 10)) =
      ["train.jsonl", "val.jsonl"] from rfl] at hmem
    simp at hmem

/-- C9 (amended).  On a successful run the pipeline writes exactly two
files, `train.jsonl` and `val.jsonl` (not `validation.jsonl`), each holding
one JSON-encoded example per line with the `messages` array in original
order; and the encoding leaves every character other than the quote, the
backslash and ASCII control characters — in particular every non-ASCII
character — unescaped. -/
theorem mainPipeline_output_files {σ : Type} (h : String → String)
    (fmul : ℚ → ℚ → ℚ) (randbelow : σ → Nat → Nat × σ) (init : Int → σ)
    (seed_data feedback_data : List Exmpl) (train_ratio : ℚ)
    (hne : seed_data ++ feedback_data ≠ []) :
    (∃ out : RunOutput,
      mainPipeline h fmul randbelow init seed_data feedback_data train_ratio =
          Except.ok out ∧
        out.files = [("train.jsonl", encodeLines out.train),
          ("val.jsonl", encodeLines out.val)] ∧
        encodeLines out.train =
          String.join (out.train.map (fun ex => dumpsExample ex ++ "\n")) ∧
        ∀ ex : Exmpl, dumpsExample ex =
          "\x7b\"messages\": [" ++
            String.intercalate ", " (ex.messages.map dumpsMsg) ++ "]\x7d") ∧
      ∀ c : Char, c ≠ '"' → c ≠ '\\' → 0x20 ≤ c.toNat → jsonEscapeChar c = [c] := by
  constructor
  · refine ⟨RunOutput.mk
      [("train.jsonl", encodeLines
          (split_data fmul randbelow init (deduplicate h (seed_data ++ feedback_data))
            train_ratio 42).1),
       ("val.jsonl", encodeLines
          (split_data fmul randbelow init (deduplicate h (seed_data ++ feedback_data))
            train_ratio 42).2)]
      (compute_statistics (deduplicate h (seed_data ++ feedback_data)))
      (split_data fmul randbelow init (deduplicate h (seed_data ++ feedback_data))
        train_ratio 42).1
      (split_data fmul randbelow init (deduplicate h (seed_data ++ feedback_data))
        train_ratio 42).2, ?_, rfl, rfl, fun ex => rfl⟩
    rw [mainPipeline, if_neg (by simpa using hne)]
  · intro c h1 h2 h3
    rw [jsonEscapeChar, if_neg h1, if_neg h2,
      if_neg (fun hc => absurd (hc ▸ h3) (by decide)),
      if_neg (fun hc => absurd (hc ▸ h3) (by decide)),
      if_neg (fun hc => absurd (hc ▸ h3) (by decide)),
      if_neg (fun hc => absurd (hc ▸ h3) (by decide)),
      if_neg (fun hc => absurd (hc ▸ h3) (by decide)),
      if_neg (by omega)]

/-- Witness for the amended C9 at a concrete non-empty input (a non-ASCII
character in the content, written unescaped). -/
theorem mainPipeline_output_files_witness :
    ((∃ out : RunOutput,
      mainPipeline id (fun x y => x * y) (fun _ _ => (0, ())) (fun _ => ())
          [Exmpl.mk [Msg.mk "user" "grüße"]] [] (9 / 10) =
          Except.ok out ∧
        out.files = [("train.jsonl", encodeLines out.train),
          ("val.jsonl", encodeLines out.val)] ∧
        encodeLines out.train =
          String.join (out.train.map (fun ex => dumpsExample ex ++ "\n")) ∧
        ∀ ex : Exmpl, dumpsExample ex =
          "\x7b\"messages\": [" ++
            String.intercalate ", " (ex.messages.map dumpsMsg) ++ "]\x7d") ∧
      ∀ c : Char, c ≠ '"' → c ≠ '\\' → 0x20 ≤ c.toNat → jsonEscapeChar c = [c]) ∧
    jsonEscapeChar 'ü' = ['ü'] := by
  constructor
  · exact mainPipeline_output_files id (fun x y => x * y) (fun _ _ => (0, ())) (fun _ => ())
      [Exmpl.mk [Msg.mk "user" "grüße"]] [] (9 / 10) (by simp)
  · exact (mainPipeline_output_files id (fun x y => x * y) (fun _ _ => (0, ())) (fun _ => ())
      [Exmpl.mk [Msg.mk "user" "grüße"]] [] (9 / 10) (by simp)).2 'ü'
      (by decide) (by decide) (by decide)

end PrepareData
